import Mathlib

/-!
Verification of the trash-compactor eligibility-and-scheduling engine.

Shallow embedding of the Python sources:
  * `src/config.py`            — extension deny-list, size thresholds, algorithm table
  * `src/file_utils.py`        — `get_size_category`, `is_file_compressed`, `should_compress_file`
  * `src/compression/entropy.py`             — Shannon entropy and directory sampling
  * `src/skip_logic.py`        — `evaluate_entropy_directory`
  * `src/compression/compression_planner.py` — `iter_files`, `_filter_high_entropy_directories`
  * `src/compression/compression_executor.py`— `_chunk`, grouping, batch/fallback execution

OS interactions (stat, GetCompressedFileSizeW, the `compact` command, directory
listing) are abstracted as oracle inputs; everything else follows the source
control flow.
-/

namespace TrashCompactor

/-! ## config.py -/

/-- `SKIP_EXTENSIONS` from `src/config.py`: the flattened union of the extension
groups (archives, disk images, images, video, audio, ML weights, office). -/
def SKIP_EXTENSIONS : List String :=
  [".zip", ".rar", ".7z", ".gz", ".xz", ".bz2", ".tar",
   ".iso", ".img", ".squashfs", ".appimage", ".vdi", ".vmdk", ".vhd", ".vhdx",
   ".qcow2", ".qed", ".vpc", ".hdd", ".raw",
   ".jpg", ".jpeg", ".png", ".gif", ".webp", ".bmp", ".heic", ".heif", ".avif",
   ".jxl", ".tiff",
   ".mp4", ".mkv", ".avi", ".mov", ".webm", ".m4v", ".hevc", ".h264", ".h265",
   ".vp8", ".vp9", ".av1", ".wmv", ".flv", ".3gp",
   ".mp3", ".aac", ".ogg", ".m4a", ".opus", ".flac", ".wav", ".wma", ".ac3",
   ".dts", ".alac", ".ape", ".aiff", ".pcm", ".vgz", ".vgm",
   ".gguf", ".h5", ".onnx", ".pb", ".tflite", ".safetensors", ".torch", ".pt",
   ".docx", ".xlsx", ".pptx", ".odt", ".ods", ".pdf"]

/-- `MIN_COMPRESSIBLE_SIZE` from `src/config.py` (8 KiB). -/
def MIN_COMPRESSIBLE_SIZE : Nat := 8 * 1024

/-- `SIZE_THRESHOLDS` from `src/config.py`: ordered (break, label) pairs. -/
def SIZE_THRESHOLDS : List (Nat × String) :=
  [(64 * 1024, "tiny"), (256 * 1024, "small"), (1024 * 1024, "medium")]

/-- `COMPRESSION_ALGORITHMS` from `src/config.py`, as an association list. -/
def COMPRESSION_ALGORITHMS : List (String × String) :=
  [("tiny", "XPRESS4K"), ("small", "XPRESS8K"), ("medium", "XPRESS16K"),
   ("large", "LZX")]

/-- Dictionary lookup `COMPRESSION_ALGORITHMS[category]`; every category
produced by `get_size_category` is a key, so the default is never reached. -/
def algorithm_for (category : String) : String :=
  match COMPRESSION_ALGORITHMS.find? (fun kv => kv.1 = category) with
  | some kv => kv.2
  | none => ""

/-! ## file_utils.py — size category -/

/-- Python's `bisect.bisect_right` on a sorted list: the insertion point, i.e.
the number of elements `≤ x`.  `_SIZE_BREAKS` is sorted, for which this count
is exactly what the binary search returns. -/
def bisect_right (breaks : List Nat) (x : Nat) : Nat :=
  (breaks.filter (fun b => b ≤ x)).length

/-- `get_size_category` from `src/file_utils.py` (identical logic in
`src/compression/compression_planner.py`):
`index = bisect_right(breaks, file_size); labels[index] if index < len else 'large'`. -/
def get_size_category (file_size : Nat) : String :=
  let breaks := SIZE_THRESHOLDS.map (fun t => t.1)
  let labels := SIZE_THRESHOLDS.map (fun t => t.2)
  let index := bisect_right breaks file_size
  ((labels.get? index).getD "large")

/-! ## file_utils.py — per-file classification

The OS-facing calls are abstracted into a `FileInfo` record:
`statSize` is the result of `path.stat().st_size` (`none` = the call raised),
`compressedQuery` is the result of `GetCompressedFileSizeW` (`none` = the call
failed with a nonzero last-error), and `compactConfirms` is the verdict of
`check_compression_with_compact` (already `false` on any error there). -/

structure FileInfo where
  suffix : String
  statSize : Option Nat
  compressedQuery : Option Nat
  compactConfirms : Bool

/-- Python's `str.lower()` on an extension: lower-case every character. -/
def str_lower (s : String) : String := String.mk (s.data.map Char.toLower)

/-- `is_file_compressed` from `src/file_utils.py`.  Returns
`(is_compressed, size)` following the source branch for branch. -/
def is_file_compressed (f : FileInfo) (thorough_check : Bool) : Bool × Nat :=
  match f.statSize with
  | none => (false, 0)
  | some actual_size =>
    match f.compressedQuery with
    | none => (false, actual_size)
    | some compressed_size =>
      if compressed_size < actual_size then (true, compressed_size)
      else if thorough_check && compressed_size == actual_size && f.compactConfirms then
        (true, compressed_size)
      else (false, compressed_size)

/-- `should_compress_file` from `src/file_utils.py`.  Returns
`(should_compress, reason, size_hint)`.  The outer `try` only observes an
exception when `stat` fails (`statSize = none`); `is_file_compressed` catches
its own errors. -/
def should_compress_file (f : FileInfo) (thorough_check : Bool) : Bool × String × Nat :=
  let suffix := str_lower f.suffix
  if suffix ∈ SKIP_EXTENSIONS then
    (false, "Skipped due to extension " ++ suffix, 0)
  else
    match f.statSize with
    | none => (false, "Error during check", 0)
    | some file_size =>
      if file_size < MIN_COMPRESSIBLE_SIZE then
        (false, "File too small (" ++ toString file_size ++ " bytes)", file_size)
      else
        let ic := is_file_compressed f thorough_check
        if ic.1 then (false, "File is already compressed", ic.2)
        else (true, "File eligible for compression", file_size)

/-! ## compression/entropy.py

Bytes are `Fin 256`; floating-point arithmetic is modelled over `ℝ`. -/

abbrev Byte := Fin 256

/-- `shannon_entropy` from `src/compression/entropy.py`: order-0 Shannon
entropy of the byte-value histogram.  The Python loop runs over the bytes
present in the `Counter`; absent byte values contribute the zero term of the
`if`. -/
noncomputable def shannon_entropy (sample : List Byte) : ℝ :=
  if sample.isEmpty then 0
  else
    let total : ℝ := sample.length;
    -(∑ b : Byte, if sample.count b = 0 then 0
      else ((sample.count b : ℝ) / total) * Real.logb 2 ((sample.count b : ℝ) / total))

/-- The accumulation loop of `sample_directory_entropy`
(`src/compression/entropy.py`).  The filesystem traversal is abstracted into
the list of chunks the reads produce, in encounter order (files whose read
raised contribute nothing, exactly like the `continue` branches).  State is
`(sampled_files, sampled_bytes, weighted_entropy)`; the loop stops once
`max_files` or `max_bytes` is reached, and empty reads are skipped. -/
noncomputable def sample_entropy_loop (max_files max_bytes : Nat) :
    List (List Byte) → Nat → Nat → ℝ → Nat × Nat × ℝ
  | [], sampled_files, sampled_bytes, weighted => (sampled_files, sampled_bytes, weighted)
  | chunk :: rest, sampled_files, sampled_bytes, weighted =>
    if max_files ≤ sampled_files ∨ max_bytes ≤ sampled_bytes then
      (sampled_files, sampled_bytes, weighted)
    else if chunk.isEmpty then
      sample_entropy_loop max_files max_bytes rest sampled_files sampled_bytes weighted
    else
      sample_entropy_loop max_files max_bytes rest (sampled_files + 1)
        (sampled_bytes + chunk.length)
        (weighted + shannon_entropy chunk * chunk.length)

/-- `sample_directory_entropy` from `src/compression/entropy.py`: returns
`(average_entropy?, sampled_files, sampled_bytes)`, with `none` when zero
bytes were sampled. -/
noncomputable def sample_directory_entropy (chunks : List (List Byte))
    (max_files max_bytes : Nat) : Option ℝ × Nat × Nat :=
  let r := sample_entropy_loop max_files max_bytes chunks 0 0 0
  if r.2.1 = 0 then (none, r.1, r.2.1)
  else (some (r.2.2 / (r.2.1 : ℝ)), r.1, r.2.1)

/-! ## skip_logic.py — entropy-savings policy

Directory paths are segment lists (`SegPath`).  The float values flowing
through the policy are modelled over `ℚ`. -/

abbrev SegPath := List String

/-- Modelled from the spec: `savings_from_entropy` is imported from
`src/config.py` but that definition is absent from the snapshot.  Per §4.1 it
is the linear map anchored at (0 bits, 100%) and (8 bits, 0%):
`savings% = 100 × (1 - H/8)`, clamped to `[0, 100]`. -/
def savings_from_entropy (h : ℚ) : ℚ :=
  max 0 (min 100 (100 * (1 - h / 8)))

/-- `evaluate_entropy_directory` from `src/skip_logic.py`.  The
`sample_directory_entropy(directory)` call reads the filesystem, so its result
`(average_entropy?, sampled_files, sampled_bytes)` is passed in as the
`sample` argument.  The returned `DirectorySkipRecord` is reduced to the datum
the claims consult: `some estimated_savings` (the percentage the reason
cites) means deny, `none` means no denial. -/
def evaluate_entropy_directory (directory base_dir : SegPath)
    (min_savings_percent : ℚ) (sample : Option ℚ × Nat × Nat) : Option ℚ :=
  if directory = base_dir then none
  else
    match sample with
    | (none, _, _) => none
    | (some average_entropy, sampled_files, sampled_bytes) =>
      if sampled_files = 0 ∨ sampled_bytes < 1024 then none
      else
        let estimated_savings := savings_from_entropy average_entropy
        if min_savings_percent ≤ estimated_savings then none
        else some estimated_savings

/-! ## compression/compression_planner.py — traversal

The filesystem is a finite tree; a directory's absolute path is the list of
name segments from the root.  The combined verdict of `maybe_skip_directory`
(system / cache / entropy policies, `src/skip_logic.py`) is abstracted as the
oracle `skip : SegPath → Bool`, since each policy only reads the path and the
(external) filesystem. -/

structure DirTree where
  name : String
  files : List String
  subdirs : List DirTree
deriving Repr

mutual

/-- The `os.walk` loop body of `iter_files`
(`src/compression/compression_planner.py`): at each visited directory, prune
subdirectories whose skip decision is true (`dirnames[:] = new_dirnames`),
yield the directory's files, and descend into the retained subdirectories. -/
def walkFiles (skip : SegPath → Bool) (cur : SegPath) : DirTree → List SegPath
  | ⟨name, files, subdirs⟩ =>
    files.map (fun f => (cur ++ [name]) ++ [f]) ++
      walkFilesForest skip (cur ++ [name]) subdirs
termination_by d => sizeOf d

/-- The per-subdirectory pruning loop of the walk. -/
def walkFilesForest (skip : SegPath → Bool) (cur : SegPath) : List DirTree → List SegPath
  | [] => []
  | d :: rest =>
    (if skip (cur ++ [d.name]) then [] else walkFiles skip cur d) ++
      walkFilesForest skip cur rest
termination_by l => sizeOf l

end

mutual

/-- The directories actually opened by the same traversal, in visit order
(`os.walk` opens a directory exactly when it was not pruned). -/
def walkDirs (skip : SegPath → Bool) (cur : SegPath) : DirTree → List SegPath
  | ⟨name, _, subdirs⟩ =>
    (cur ++ [name]) :: walkDirsForest skip (cur ++ [name]) subdirs
termination_by d => sizeOf d

/-- The per-subdirectory pruning loop, tracking opened directories. -/
def walkDirsForest (skip : SegPath → Bool) (cur : SegPath) : List DirTree → List SegPath
  | [] => []
  | d :: rest =>
    (if skip (cur ++ [d.name]) then [] else walkDirs skip cur d) ++
      walkDirsForest skip cur rest
termination_by l => sizeOf l

end

/-- `iter_files` from `src/compression/compression_planner.py`: the root's own
skip decision is evaluated first; if it denies, nothing is yielded. -/
def iter_files (skip : SegPath → Bool) (root : DirTree) : List SegPath :=
  if skip [root.name] then [] else walkFiles skip [] root

/-- The directories visited by `iter_files`. -/
def visited_dirs (skip : SegPath → Bool) (root : DirTree) : List SegPath :=
  if skip [root.name] then [] else walkDirs skip [] root

/-- Strict-descendant relation on segment paths: `p` lies strictly beneath
`q`. -/
def under (q p : SegPath) : Prop := ∃ rest, rest ≠ [] ∧ p = q ++ rest

/-! ## compression_planner.py — planning and the entropy re-filter -/

/-- A compression plan entry `(path, size_bytes, algorithm)`. -/
abbrev PlanEntry := SegPath × Nat × String

/-- The candidate-building loop of `plan_compression`
(`src/compression/compression_planner.py`).  The per-file classification
(`should_compress_file` plus the stat) depends on file contents, so it is
abstracted as `classify : SegPath → Option Nat`: `some size` means the
decision allowed the file of that stat size (it is then bucketed through
`get_size_category` / `COMPRESSION_ALGORITHMS` exactly as in the source);
`none` covers every deny and error branch, which only update statistics. -/
def plan_candidates (classify : SegPath → Option Nat) (files : List SegPath) :
    List PlanEntry :=
  files.filterMap (fun f =>
    (classify f).map (fun size => (f, size, algorithm_for (get_size_category size))))

/-- `_ancestors_including_base` from `src/compression/compression_planner.py`:
climb `Path.parent` (here `dropLast`) collecting paths, stopping after
`base_dir` or at a parent fixpoint (the filesystem anchor, here `[]`). -/
def ancestors_including_base (path base_dir : SegPath) : List SegPath :=
  path :: (if path = base_dir then []
           else if path.dropLast = path then []
           else ancestors_including_base path.dropLast base_dir)
termination_by path.length
decreasing_by
  simp only [List.length_dropLast]
  rename_i h1 h2
  have : path ≠ [] := by
    intro hnil
    exact h2 (by simp [hnil])
  have : 0 < path.length := List.length_pos.mpr this
  omega

/-- Lookup in the `skipped_directories` association list. -/
def lookup_skip (p : SegPath) (skipped : List (SegPath × ℚ)) : Option ℚ :=
  match skipped.find? (fun kv => kv.1 = p) with
  | some kv => some kv.2
  | none => none

/-- `_has_skipped_ancestor` from `src/compression/compression_planner.py`. -/
def has_skipped_ancestor (directory base_dir : SegPath)
    (skipped : List (SegPath × ℚ)) : Bool :=
  (ancestors_including_base directory base_dir).any
    (fun a => (lookup_skip a skipped).isSome)

/-- `_locate_skip_record` from `src/compression/compression_planner.py`. -/
def locate_skip_record (directory base_dir : SegPath)
    (skipped : List (SegPath × ℚ)) : Option ℚ :=
  (ancestors_including_base directory base_dir).findSome?
    (fun a => lookup_skip a skipped)

/-- The Python `sorted` key for directories:
`(len(item.parts), str(item).casefold())`. -/
def dir_sort_le (a b : SegPath) : Bool :=
  a.length < b.length ||
    (a.length = b.length &&
      String.intercalate "/" (a.map (fun s => s.toLower)) ≤
        String.intercalate "/" (b.map (fun s => s.toLower)))

/-- Insertion sort implementing Python's stable `sorted` with `dir_sort_le`. -/
def sort_dirs (l : List SegPath) : List SegPath :=
  l.foldr insertDir []
where
  insertDir (a : SegPath) : List SegPath → List SegPath
    | [] => [a]
    | b :: rest => if dir_sort_le a b then a :: b :: rest else b :: insertDir a rest

/-- The `skipped_directories` construction loop of
`_filter_high_entropy_directories`: directories in sorted order, skipping any
whose ancestor is already recorded, evaluating the entropy policy otherwise.
`sample` is the filesystem-reading `sample_directory_entropy` oracle. -/
def build_skipped (sample : SegPath → Option ℚ × Nat × Nat) (base_dir : SegPath)
    (min_savings_percent : ℚ) (dirs : List SegPath) : List (SegPath × ℚ) :=
  dirs.foldl
    (fun skipped directory =>
      if has_skipped_ancestor directory base_dir skipped then skipped
      else
        match evaluate_entropy_directory directory base_dir min_savings_percent
            (sample directory) with
        | some record => skipped ++ [(directory, record)]
        | none => skipped)
    []

/-- `_filter_high_entropy_directories` from
`src/compression/compression_planner.py`. -/
def filter_high_entropy_directories (sample : SegPath → Option ℚ × Nat × Nat)
    (base_dir : SegPath) (min_savings_percent : ℚ) (candidates : List PlanEntry) :
    List PlanEntry :=
  if candidates.isEmpty || min_savings_percent ≤ 0 then candidates
  else
    let parents := (candidates.map (fun e => e.1.dropLast)).dedup
    let directories := if base_dir ∈ parents then parents else parents ++ [base_dir]
    let skipped := build_skipped sample base_dir min_savings_percent
      (sort_dirs directories)
    if skipped.isEmpty then candidates
    else candidates.filter
      (fun e => (locate_skip_record e.1.dropLast base_dir skipped).isNone)

/-- `plan_compression` composed with `iter_files`
(`src/compression/compression_planner.py`): the final plan a run hands to the
executor.  `base_dir` is the root's path, as in `compress_directory`. -/
def final_plan (skip : SegPath → Bool) (classify : SegPath → Option Nat)
    (sample : SegPath → Option ℚ × Nat × Nat) (min_savings_percent : ℚ)
    (root : DirTree) : List PlanEntry :=
  filter_high_entropy_directories sample [root.name] min_savings_percent
    (plan_candidates classify (iter_files skip root))

/-! ## compression/compression_executor.py

Paths reaching the executor are modelled as their resolved path strings
(`path.resolve()` in the source).  The OS is abstracted into `ExecEnv`:
`batchResult algo paths` is the outcome of the batched `compact` invocation
(`Except` for the unexpected-exception branch, otherwise the return code),
`singleResult path algo` is the success flag of `compress_file`, and
`verify path` the outcome of the `is_file_compressed` re-verification
(`Except` for the `OSError` branch, otherwise `(verified, compressed_size)`). -/

def BATCH_SIZE : Nat := 100

def MAX_COMMAND_CHARS : Nat := 4000

structure ExecEnv where
  batchResult : String → List String → Except Unit Int
  singleResult : String → String → Bool
  verify : String → Except Unit (Bool × Nat)

/-- The mutable fields of `CompressionStats` (`src/stats.py`) that
`execute_compression_plan` touches. -/
structure CompressionStats where
  compressed_files : Nat := 0
  skipped_files : Nat := 0
  total_original_size : Nat := 0
  total_compressed_size : Nat := 0
  total_skipped_size : Nat := 0
  errors : List String := []
deriving Repr

/-- Executor state: the shared stats plus a trace of the paths given to the
single-file compression path (`_compress_single`), used to observe how often
the fallback runs. -/
structure ExecState where
  stats : CompressionStats
  singles : List String := []
deriving Repr

/-- `path_length` accounting inside `_chunk`:
`len(str(path.resolve())) + 3  # for quotes and space`. -/
def path_length (path : String) : Nat := path.length + 3

/-- The combined quoted command length the chunker attributes to a batch:
the sum of its entries' `path_length`s (`current_length` in the source). -/
def batch_chars (batch : List (String × Nat)) : Nat :=
  (batch.map (fun e => path_length e.1)).sum

/-- The generator body of `_chunk` from
`src/compression/compression_executor.py`, with the pending batch `current`
and its `current_length` made explicit. -/
def chunkAux (size : Nat) : List (String × Nat) → List (String × Nat) → Nat →
    List (List (String × Nat))
  | [], current, _ => if current.isEmpty then [] else [current]
  | (path, file_size) :: rest, current, current_length =>
    let pl := path_length path
    if ¬current.isEmpty ∧ (size ≤ current.length ∨ MAX_COMMAND_CHARS < current_length + pl) then
      current :: chunkAux size rest [(path, file_size)] pl
    else
      chunkAux size rest (current ++ [(path, file_size)]) (current_length + pl)

/-- `_chunk(entries, size)` from `src/compression/compression_executor.py`. -/
def chunk (entries : List (String × Nat)) (size : Nat) : List (List (String × Nat)) :=
  chunkAux size entries [] 0

/-- `grouped.setdefault(algorithm, []).append((path, size))`: append the entry
to its algorithm's group, creating the group at the end on first sight
(Python dicts preserve insertion order). -/
def add_to_group (groups : List (String × List (String × Nat))) (algo : String)
    (entry : String × Nat) : List (String × List (String × Nat)) :=
  match groups with
  | [] => [(algo, [entry])]
  | (k, l) :: rest =>
    if k = algo then (k, l ++ [entry]) :: rest
    else (k, l) :: add_to_group rest algo entry

/-- The grouping loop of `execute_compression_plan`. -/
def group_by_algorithm (plan : List (String × Nat × String)) :
    List (String × List (String × Nat)) :=
  plan.foldl (fun groups e => add_to_group groups e.2.2 (e.1, e.2.1)) []

/-- First-match lookup of an algorithm's entry list among the groups. -/
def find_group (algo : String) : List (String × List (String × Nat)) →
    List (String × Nat)
  | [] => []
  | (k, l) :: rest => if k = algo then l else find_group algo rest

/-- The entries of `plan` carrying algorithm `algo`, in plan order. -/
def group_entries (algo : String) (plan : List (String × Nat × String)) :
    List (String × Nat) :=
  (plan.filter (fun e => e.2.2 = algo)).map (fun e => (e.1, e.2.1))

/-- `_record_error`: append a message to `stats.errors`. -/
def record_error (st : ExecState) (message : String) : ExecState :=
  { st with stats := { st.stats with errors := st.stats.errors ++ [message] } }

/-- `_record_success` from `src/compression/compression_executor.py`. -/
def record_success (st : ExecState) (compressed_size : Nat) : ExecState :=
  { st with stats :=
      { st.stats with
        compressed_files := st.stats.compressed_files + 1
        total_compressed_size := st.stats.total_compressed_size + compressed_size } }

/-- `_record_failure` from `src/compression/compression_executor.py`: a skip
with the original size credited to both running size totals. -/
def record_failure (st : ExecState) (file_size : Nat) : ExecState :=
  { st with stats :=
      { st.stats with
        skipped_files := st.stats.skipped_files + 1
        total_compressed_size := st.stats.total_compressed_size + file_size
        total_skipped_size := st.stats.total_skipped_size + file_size } }

/-- `_finalize_success` from `src/compression/compression_executor.py`:
re-verify; on an `OSError` record the error and credit the fallback size,
otherwise credit the verified compressed size (success either way). -/
def finalize_success (env : ExecEnv) (st : ExecState) (path : String)
    (fallback_size : Nat) : ExecState :=
  match env.verify path with
  | Except.error _ =>
    record_success (record_error st ("Error verifying " ++ path)) fallback_size
  | Except.ok vr => record_success st vr.2

/-- `_compress_single` from `src/compression/compression_executor.py`: the
single-file compression path (also the per-file fallback). -/
def compress_single (env : ExecEnv) (st : ExecState) (path : String)
    (file_size : Nat) (algo : String) : ExecState :=
  let st := { st with singles := st.singles ++ [path] }
  if env.singleResult path algo then finalize_success env st path file_size
  else record_failure st file_size

/-- The per-batch handling inside `execute_compression_plan`: the batch call's
outcome decides between the unexpected-exception fallback (record an error per
file, then the single-file path), the nonzero-return-code fallback (single-file
path per file), and the success path (`_finalize_success` per file). -/
def process_batch (env : ExecEnv) (st : ExecState) (algo : String)
    (batch : List (String × Nat)) : ExecState :=
  match env.batchResult algo (batch.map (fun e => e.1)) with
  | Except.error _ =>
    batch.foldl
      (fun st e =>
        compress_single env (record_error st ("Batch exception for " ++ e.1))
          e.1 e.2 algo)
      st
  | Except.ok returncode =>
    if returncode ≠ 0 then
      batch.foldl (fun st e => compress_single env st e.1 e.2 algo) st
    else
      batch.foldl (fun st e => finalize_success env st e.1 e.2) st

/-- `execute_compression_plan` from `src/compression/compression_executor.py`:
group by algorithm, chunk each group, process every batch.  Batches of one
group run on a worker pool and complete in arbitrary order; every mutation
commutes (counter increments and list appends under one lock), so the fold in
submission order is observationally adequate for the totals and traces the
claims consult. -/
def execute_compression_plan (env : ExecEnv) (plan : List (String × Nat × String))
    (st : ExecState) : ExecState :=
  (group_by_algorithm plan).foldl
    (fun st g => (chunk g.2 BATCH_SIZE).foldl (fun st b => process_batch env st g.1 b) st)
    st

/-- A batch-level outcome the source treats as failure: the call raised, or it
returned a nonzero return code. -/
def batch_failed (r : Except Unit Int) : Prop :=
  match r with
  | Except.error _ => True
  | Except.ok returncode => returncode ≠ 0

instance : DecidablePred batch_failed := fun r => by
  unfold batch_failed
  cases r
  case error => exact inferInstanceAs (Decidable True)
  case ok rc => exact inferInstanceAs (Decidable (rc ≠ 0))

/-! ## Theorems -/

/-- C1: `should_compress_file` applies its checks in a fixed order with first
match winning: (1) a deny-listed lowercased extension denies regardless of the
file's size or content; (2) otherwise a size below the 8 KiB minimum denies
with the actual size as the size hint; (3) otherwise an already-compressed
file denies with the compressed size as the size hint; (4) otherwise it allows
with size hint equal to the file size. -/
theorem C1_should_compress_file_order (f : FileInfo) (t : Bool) :
    (str_lower f.suffix ∈ SKIP_EXTENSIONS → (should_compress_file f t).1 = false) ∧
    (str_lower f.suffix ∉ SKIP_EXTENSIONS →
      ∀ n, f.statSize = some n → n < MIN_COMPRESSIBLE_SIZE →
        should_compress_file f t =
          (false, "File too small (" ++ toString n ++ " bytes)", n)) ∧
    (str_lower f.suffix ∉ SKIP_EXTENSIONS →
      ∀ n, f.statSize = some n → MIN_COMPRESSIBLE_SIZE ≤ n →
        (is_file_compressed f t).1 = true →
        should_compress_file f t =
          (false, "File is already compressed", (is_file_compressed f t).2)) ∧
    (str_lower f.suffix ∉ SKIP_EXTENSIONS →
      ∀ n, f.statSize = some n → MIN_COMPRESSIBLE_SIZE ≤ n →
        (is_file_compressed f t).1 = false →
        should_compress_file f t = (true, "File eligible for compression", n)) := by
  refine ⟨?_, ?_, ?_, ?_⟩
  · intro hext
    simp [should_compress_file, hext]
  · intro hext n hstat hsmall
    simp [should_compress_file, hext, hstat, hsmall]
  · intro hext n hstat hbig hic
    have hns : ¬(n < MIN_COMPRESSIBLE_SIZE) := not_lt.mpr hbig
    simp [should_compress_file, hext, hstat, hns, hic]
  · intro hext n hstat hbig hic
    have hns : ¬(n < MIN_COMPRESSIBLE_SIZE) := not_lt.mpr hbig
    simp [should_compress_file, hext, hstat, hns, hic]

/-- Witness for C1 at concrete inputs: a 100-byte `.txt` file is denied as too
small with its size in the decision. -/
theorem C1_should_compress_file_order_witness :
    (str_lower ".txt" ∉ SKIP_EXTENSIONS) ∧
    should_compress_file ⟨".txt", some 100, none, false⟩ false =
      (false, "File too small (100 bytes)", 100) := by
  refine ⟨by decide, ?_⟩
  exact (C1_should_compress_file_order ⟨".txt", some 100, none, false⟩ false).2.1
    (by decide) 100 rfl (by decide)

/-- C2: the size-to-algorithm mapping is total over all sizes with half-open
intervals: thresholds are strictly increasing, every size maps to exactly one
of the four buckets, size `t2 - 1` maps with all of `[t1, t2)` to the same
bucket, size exactly `t2` maps to the next bucket, and every size `≥ t3` maps
to the default `large` bucket. -/
theorem C2_size_category_buckets :
    List.Chain' (fun a b => a < b) (SIZE_THRESHOLDS.map (fun thr => thr.1)) ∧
    (∀ n, get_size_category n = "tiny" ∨ get_size_category n = "small" ∨
      get_size_category n = "medium" ∨ get_size_category n = "large") ∧
    (∀ s, 64 * 1024 ≤ s → s < 256 * 1024 →
      get_size_category s = get_size_category (256 * 1024 - 1)) ∧
    (get_size_category (256 * 1024 - 1) = "small" ∧
      get_size_category (256 * 1024) = "medium") ∧
    (∀ s, 1024 * 1024 ≤ s → get_size_category s = "large") := by
  refine ⟨by simp [SIZE_THRESHOLDS, List.chain'_cons], ?_, ?_, ⟨by decide, by decide⟩, ?_⟩
  · intro n
    by_cases h1 : 64 * 1024 ≤ n <;> by_cases h2 : 256 * 1024 ≤ n <;>
      by_cases h3 : 1024 * 1024 ≤ n <;>
      simp [get_size_category, bisect_right, SIZE_THRESHOLDS, h1, h2, h3] <;> omega
  · intro s hlo hhi
    have h2 : ¬(256 * 1024 ≤ s) := not_le.mpr hhi
    have h3 : ¬(1024 * 1024 ≤ s) := by omega
    simp [get_size_category, bisect_right, SIZE_THRESHOLDS, hlo, h2, h3]
  · intro s h3
    have h1 : 64 * 1024 ≤ s := by omega
    have h2 : 256 * 1024 ≤ s := by omega
    simp [get_size_category, bisect_right, SIZE_THRESHOLDS, h1, h2, h3]

/-- Witness for C2 at concrete sizes: 200000 ∈ [64K, 256K) maps with 256K-1 to
one bucket, and 2 MiB maps to `large`. -/
theorem C2_size_category_buckets_witness :
    get_size_category 200000 = get_size_category (256 * 1024 - 1) ∧
    get_size_category (2 * 1024 * 1024) = "large" := by
  exact ⟨C2_size_category_buckets.2.2.1 200000 (by decide) (by decide),
    C2_size_category_buckets.2.2.2.2 (2 * 1024 * 1024) (by decide)⟩

/-- C7: `is_file_compressed` reports compressed exactly when the OS-reported
compressed size is strictly below the logical size, or the sizes are equal,
`thorough_check` holds and the `compact` probe confirms; any OS error during
the size lookups yields "not compressed" instead of an exception. -/
theorem C7_is_file_compressed_spec (f : FileInfo) (t : Bool) :
    ((is_file_compressed f t).1 = true ↔
      ∃ actual compressed, f.statSize = some actual ∧
        f.compressedQuery = some compressed ∧
        (compressed < actual ∨
          (compressed = actual ∧ t = true ∧ f.compactConfirms = true))) ∧
    (f.statSize = none → is_file_compressed f t = (false, 0)) ∧
    (∀ actual, f.statSize = some actual → f.compressedQuery = none →
      is_file_compressed f t = (false, actual)) := by
  refine ⟨?_, ?_, ?_⟩
  · constructor
    · intro h1
      unfold is_file_compressed at h1
      cases hs : f.statSize with
      | none => rw [hs] at h1; simp at h1
      | some actual =>
        rw [hs] at h1
        cases hq : f.compressedQuery with
        | none => rw [hq] at h1; simp at h1
        | some compressed =>
          rw [hq] at h1
          simp only [] at h1
          by_cases hlt : compressed < actual
          · exact ⟨actual, compressed, rfl, rfl, Or.inl hlt⟩
          · rw [if_neg hlt] at h1
            by_cases hcond : (t && compressed == actual && f.compactConfirms) = true
            · rcases Bool.and_eq_true_iff.mp hcond with ⟨hta, hc⟩
              rcases Bool.and_eq_true_iff.mp hta with ⟨ht, hbeq⟩
              exact ⟨actual, compressed, rfl, rfl,
                Or.inr ⟨beq_iff_eq.mp hbeq, ht, hc⟩⟩
            · rw [if_neg hcond] at h1
              simp at h1
    · rintro ⟨actual, compressed, hs, hq, hcase⟩
      unfold is_file_compressed
      rw [hs, hq]
      simp only []
      rcases hcase with hlt | ⟨heq, ht, hcf⟩
      · rw [if_pos hlt]
      · have hnlt : ¬(compressed < actual) := by omega
        rw [if_neg hnlt]
        have hcond : (t && compressed == actual && f.compactConfirms) = true := by
          simp [ht, heq, hcf]
        rw [if_pos hcond]
  · intro hs
    simp [is_file_compressed, hs]
  · intro actual hs hq
    simp [is_file_compressed, hs, hq]

/-- Witness for C7 at concrete inputs: equal sizes with `thorough_check` and a
confirming probe report compressed; a failed size query fails open. -/
theorem C7_is_file_compressed_spec_witness :
    (is_file_compressed ⟨".txt", some 50, some 50, true⟩ true).1 = true ∧
    is_file_compressed ⟨".txt", some 50, none, true⟩ true = (false, 50) := by
  constructor
  · exact (C7_is_file_compressed_spec ⟨".txt", some 50, some 50, true⟩ true).1.mpr
      ⟨50, 50, rfl, rfl, Or.inr ⟨rfl, rfl, rfl⟩⟩
  · exact (C7_is_file_compressed_spec ⟨".txt", some 50, none, true⟩ true).2.2 50 rfl rfl

/-- The byte-value histogram is exhaustive: per-value counts sum to the
sample length. -/
theorem sum_count_eq_length (l : List Byte) : ∑ b : Byte, l.count b = l.length := by
  induction l with
  | nil => simp
  | cons a t ih =>
    simp only [List.count_cons, List.length_cons]
    rw [Finset.sum_add_distrib, ih]
    simp

/-- A non-empty all-zero sample has entropy exactly 0. -/
theorem shannon_entropy_all_zero (l : List Byte) (hne : l ≠ [])
    (hz : ∀ b ∈ l, b = 0) : shannon_entropy l = 0 := by
  unfold shannon_entropy
  rw [if_neg (by simpa using hne)]
  simp only []
  rw [neg_eq_zero]
  apply Finset.sum_eq_zero
  intro b _
  by_cases hb : l.count b = 0
  · rw [if_pos hb]
  · rw [if_neg hb]
    have hbl : b ∈ l := List.count_pos_iff.mp (Nat.pos_of_ne_zero hb)
    have hb0 : b = 0 := hz b hbl
    have hcnt : l.count b = l.length := by
      rw [List.count_eq_length]
      intro x hx
      rw [hb0, hz x hx]
    have hlen : (l.length : ℝ) ≠ 0 := by
      simp [List.length_eq_zero]
      exact hne
    rw [hcnt, div_self hlen, Real.logb_one, mul_zero]

/-- A sample holding every byte value with the same positive frequency has
entropy exactly 8. -/
theorem shannon_entropy_uniform (l : List Byte) (k : Nat) (hk : k ≠ 0)
    (hcount : ∀ b : Byte, l.count b = k) : shannon_entropy l = 8 := by
  have hlen : l.length = 256 * k := by
    rw [← sum_count_eq_length]
    rw [Finset.sum_congr rfl (fun b _ => hcount b)]
    rw [Finset.sum_const, Finset.card_univ, Fintype.card_fin, smul_eq_mul]
  have hne : l ≠ [] := by
    intro h
    rw [h] at hlen
    simp at hlen
    omega
  unfold shannon_entropy
  rw [if_neg (by simpa using hne)]
  simp only []
  have hterm : ∀ b : Byte, (if l.count b = 0 then (0:ℝ)
      else ((l.count b : ℝ) / (l.length : ℝ)) *
        Real.logb 2 ((l.count b : ℝ) / (l.length : ℝ))) = (1/256) * (-8) := by
    intro b
    rw [if_neg (by rw [hcount b]; exact hk)]
    rw [hcount b, hlen]
    have hkR : (k:ℝ) ≠ 0 := Nat.cast_ne_zero.mpr hk
    have hdiv : ((k:ℝ) / ((256 * k : ℕ) : ℝ)) = 1 / 256 := by
      push_cast
      rw [mul_comm, div_mul_eq_div_div, div_self hkR]
    rw [hdiv]
    congr 1
    have h256 : (256 : ℝ) = 2 ^ (8:ℕ) := by norm_num
    rw [one_div, Real.logb_inv, h256, Real.logb_pow,
      Real.logb_self_eq_one (by norm_num)]
    norm_num
  rw [Finset.sum_congr rfl (fun b _ => hterm b)]
  rw [Finset.sum_const, Finset.card_univ, Fintype.card_fin, nsmul_eq_mul]
  norm_num

/-- The sampler returns a null average exactly when zero bytes were read. -/
theorem sample_directory_entropy_none_iff (chunks : List (List Byte))
    (max_files max_bytes : Nat) :
    (sample_directory_entropy chunks max_files max_bytes).1 = none ↔
      (sample_directory_entropy chunks max_files max_bytes).2.2 = 0 := by
  unfold sample_directory_entropy
  by_cases h : (sample_entropy_loop max_files max_bytes chunks 0 0 0).2.1 = 0
  · rw [if_pos h]
    simpa using h
  · rw [if_neg h]
    simpa using h

/-- C8: the entropy estimator computes order-0 Shannon entropy over the
byte-value histogram: a non-empty all-zero buffer yields exactly 0.0, a
buffer holding all 256 byte values with equal frequency yields exactly 8.0,
and `sample_directory_entropy` returns a null average entropy exactly when
zero bytes were sampled. -/
theorem C8_entropy_estimator :
    (∀ l : List Byte, l ≠ [] → (∀ b ∈ l, b = 0) → shannon_entropy l = 0) ∧
    (∀ (l : List Byte) (k : Nat), k ≠ 0 → (∀ b : Byte, l.count b = k) →
      shannon_entropy l = 8) ∧
    (∀ (chunks : List (List Byte)) (max_files max_bytes : Nat),
      (sample_directory_entropy chunks max_files max_bytes).1 = none ↔
        (sample_directory_entropy chunks max_files max_bytes).2.2 = 0) :=
  ⟨shannon_entropy_all_zero, shannon_entropy_uniform,
    sample_directory_entropy_none_iff⟩

/-- Witness for C8 at concrete buffers: three zero bytes give entropy 0, the
256 distinct byte values give entropy 8, and sampling an empty subtree gives
a null average. -/
theorem C8_entropy_estimator_witness :
    shannon_entropy (List.replicate 3 (0 : Byte)) = 0 ∧
    shannon_entropy (List.finRange 256) = 8 ∧
    (sample_directory_entropy [] 48 8388608).1 = none := by
  refine ⟨C8_entropy_estimator.1 _ (by decide)
      (fun b hb => List.eq_of_mem_replicate hb),
    C8_entropy_estimator.2.1 (List.finRange 256) 1 (by decide)
      (fun b => List.count_eq_one_of_mem (List.nodup_finRange 256)
        (List.mem_finRange b)),
    (C8_entropy_estimator.2.2 [] 48 8388608).mpr rfl⟩

/-- Estimated savings are clamped to be non-negative. -/
theorem savings_from_entropy_nonneg (h : ℚ) : 0 ≤ savings_from_entropy h :=
  le_max_left 0 _

/-- C9 counterexample: the claim "denies a directory whose subtree entropy
sample succeeds if and only if the estimated savings is below the configured
threshold" fails at a successful sample of only 512 bytes: the estimated
savings (0%) is below the threshold (50%), the directory is not the base, yet
the policy does not deny, because the code additionally requires at least
1024 sampled bytes. -/
theorem C9_entropy_policy_counterexample :
    evaluate_entropy_directory ["r", "media"] ["r"] 50 (some 8, 1, 512) = none ∧
    savings_from_entropy 8 < 50 ∧
    (["r", "media"] : SegPath) ≠ ["r"] := by
  refine ⟨?_, by norm_num [savings_from_entropy], by decide⟩
  norm_num [evaluate_entropy_directory]

/-- C9 (amended): with the spec-modelled savings estimator, the
entropy-savings policy denies a non-base directory exactly when the sample
succeeded with at least one file and at least 1024 sampled bytes and the
estimated savings is below the threshold, citing that estimate; the base
directory is never denied, and a zero threshold denies nothing. -/
theorem C9_entropy_policy_amended (directory base_dir : SegPath)
    (min_savings_percent : ℚ) (sample : Option ℚ × Nat × Nat) :
    (∀ r, evaluate_entropy_directory directory base_dir min_savings_percent sample
        = some r ↔
      (directory ≠ base_dir ∧ ∃ avg, sample.1 = some avg ∧ sample.2.1 ≠ 0 ∧
        1024 ≤ sample.2.2 ∧ savings_from_entropy avg < min_savings_percent ∧
        r = savings_from_entropy avg)) ∧
    (directory = base_dir →
      evaluate_entropy_directory directory base_dir min_savings_percent sample = none) ∧
    (min_savings_percent = 0 →
      evaluate_entropy_directory directory base_dir min_savings_percent sample = none) := by
  obtain ⟨avg?, sampled_files, sampled_bytes⟩ := sample
  refine ⟨?_, ?_, ?_⟩
  · intro r
    unfold evaluate_entropy_directory
    by_cases hbase : directory = base_dir
    · simp [hbase]
    · rw [if_neg hbase]
      cases avg? with
      | none => simp [hbase]
      | some avg =>
        simp only []
        by_cases hsf : sampled_files = 0 ∨ sampled_bytes < 1024
        · rw [if_pos hsf]
          constructor
          · intro h
            exact absurd h (by simp)
          · rintro ⟨_, avg2, havg, hf, hb, _, _⟩
            rcases hsf with h0 | hlt
            · exact absurd h0 hf
            · omega
        · rw [if_neg hsf]
          push_neg at hsf
          by_cases hth : min_savings_percent ≤ savings_from_entropy avg
          · rw [if_pos hth]
            constructor
            · intro h
              exact absurd h (by simp)
            · rintro ⟨_, avg2, havg, _, _, hlow, _⟩
              rw [Option.some_inj.mp havg] at hth
              exact absurd hth (not_le.mpr hlow)
          · rw [if_neg hth]
            simp only [hbase, Option.some_inj]
            constructor
            · intro hr
              exact ⟨hbase, avg, rfl, hsf.1, hsf.2, not_le.mp hth, hr.symm⟩
            · rintro ⟨_, avg2, havg, _, _, _, hr⟩
              rw [havg]
              exact hr.symm
  · intro hbase
    simp [evaluate_entropy_directory, hbase]
  · intro hzero
    unfold evaluate_entropy_directory
    by_cases hbase : directory = base_dir
    · simp [hbase]
    · rw [if_neg hbase]
      cases avg? with
      | none => rfl
      | some avg =>
        simp only []
        by_cases hsf : sampled_files = 0 ∨ sampled_bytes < 1024
        · rw [if_pos hsf]
        · rw [if_neg hsf,
            if_pos (hzero ▸ savings_from_entropy_nonneg avg)]

/-- Witness for C9 at concrete inputs: a non-base directory sampled at 6
bits/byte (estimated savings 25%) with 2 KiB over two files is denied against
a 50% threshold, citing 25%. -/
theorem C9_entropy_policy_amended_witness :
    evaluate_entropy_directory ["r", "media"] ["r"] 50 (some 6, 2, 2048)
      = some 25 := by
  refine ((C9_entropy_policy_amended ["r", "media"] ["r"] 50
    (some 6, 2, 2048)).1 25).mpr ⟨by decide, 6, rfl, by decide, by decide, ?_, ?_⟩
  · norm_num [savings_from_entropy]
  · norm_num [savings_from_entropy]

/-- Concatenating the chunker's batches restores the entry list: no entry is
lost or duplicated. -/
theorem chunkAux_join : ∀ (entries : List (String × Nat)) (size : Nat)
    (current : List (String × Nat)) (current_length : Nat),
    (chunkAux size entries current current_length).flatten = current ++ entries := by
  intro entries
  induction entries with
  | nil =>
    intro size current current_length
    unfold chunkAux
    by_cases h : current.isEmpty
    · rw [if_pos h]
      simp [List.isEmpty_iff.mp h]
    · rw [if_neg h]
      simp
  | cons e rest ih =>
    intro size current current_length
    obtain ⟨path, file_size⟩ := e
    unfold chunkAux
    by_cases h : ¬current.isEmpty ∧
        (size ≤ current.length ∨ MAX_COMMAND_CHARS < current_length + path_length path)
    · rw [if_pos h]
      simp [ih]
    · rw [if_neg h]
      rw [ih]
      simp

/-- `_chunk` accounts for every entry exactly once. -/
theorem chunk_join (entries : List (String × Nat)) (size : Nat) :
    (chunk entries size).flatten = entries :=
  chunkAux_join entries size [] 0

/-- Invariant of the chunker loop: every emitted batch respects the file-count
cap, and every emitted batch of at least two files respects the command-length
budget. -/
theorem chunkAux_bounded : ∀ (entries : List (String × Nat)) (size : Nat)
    (current : List (String × Nat)) (current_length : Nat),
    1 ≤ size → current.length ≤ size →
    current_length = batch_chars current →
    (2 ≤ current.length → current_length ≤ MAX_COMMAND_CHARS) →
    ∀ batch ∈ chunkAux size entries current current_length,
      batch.length ≤ size ∧ (2 ≤ batch.length → batch_chars batch ≤ MAX_COMMAND_CHARS) := by
  intro entries
  induction entries with
  | nil =>
    intro size current current_length hsz hlen hchars hbudget batch hmem
    unfold chunkAux at hmem
    by_cases h : current.isEmpty
    · rw [if_pos h] at hmem
      simp at hmem
    · rw [if_neg h] at hmem
      simp at hmem
      subst hmem
      exact ⟨hlen, fun h2 => hchars ▸ hbudget h2⟩
  | cons e rest ih =>
    intro size current current_length hsz hlen hchars hbudget batch hmem
    obtain ⟨path, file_size⟩ := e
    unfold chunkAux at hmem
    by_cases h : ¬current.isEmpty ∧
        (size ≤ current.length ∨ MAX_COMMAND_CHARS < current_length + path_length path)
    · rw [if_pos h] at hmem
      rcases List.mem_cons.mp hmem with hb | hb
      · subst hb
        exact ⟨hlen, fun h2 => hchars ▸ hbudget h2⟩
      · refine ih size [(path, file_size)] (path_length path) hsz ?_ ?_ ?_ batch hb
        · simpa using hsz
        · simp [batch_chars]
        · intro h2
          simp at h2
    · rw [if_neg h] at hmem
      push_neg at h
      by_cases hemp : current.isEmpty
      · have hcur : current = [] := List.isEmpty_iff.mp hemp
        subst hcur
        simp only [batch_chars, List.map_nil, List.sum_nil] at hchars
        subst hchars
        simp only [List.nil_append, Nat.zero_add] at hmem
        refine ih size [(path, file_size)] (path_length path) hsz ?_ ?_ ?_ batch hmem
        · simpa using hsz
        · simp [batch_chars]
        · intro h2
          simp at h2
      · obtain ⟨hlt, hle⟩ := h hemp
        refine ih size (current ++ [(path, file_size)])
          (current_length + path_length path) hsz ?_ ?_ ?_ batch hmem
        · simp
          omega
        · simp [batch_chars, hchars]
        · intro _
          exact hle

/-- C5 counterexample: a single entry whose resolved path alone is 4000
characters long forms its own batch, whose combined quoted length (4003 by
the chunker's own accounting, 4002 as a quoted command) exceeds the
4000-character budget, refuting "never produces a batch whose combined quoted
resolved-path length exceeds the configured command-length budget". -/
theorem C5_batch_chunker_counterexample :
    chunk [(String.mk (List.replicate 4000 'a'), 0)] BATCH_SIZE =
      [[(String.mk (List.replicate 4000 'a'), 0)]] ∧
    MAX_COMMAND_CHARS <
      batch_chars [(String.mk (List.replicate 4000 'a'), 0)] := by
  constructor
  · unfold chunk chunkAux
    rw [if_neg (by simp)]
    unfold chunkAux
    rw [if_neg (by simp)]
    simp
  · have hlen : (String.mk (List.replicate 4000 'a')).length = 4000 := by
      rw [← String.length_data]
      exact List.length_replicate 4000 'a'
    simp only [batch_chars, path_length, List.map_cons, List.map_nil,
      List.sum_cons, List.sum_nil]
    rw [hlen]
    decide

/-- C5 (amended): the chunker never produces a batch of more than 100 files,
and never produces a batch of two or more files whose combined quoted
resolved-path length exceeds the 4000-character budget; the only batches over
budget are single files whose quoted path alone exceeds it. -/
theorem C5_batch_chunker_amended (entries : List (String × Nat)) :
    ∀ batch ∈ chunk entries BATCH_SIZE,
      batch.length ≤ BATCH_SIZE ∧
      (2 ≤ batch.length → batch_chars batch ≤ MAX_COMMAND_CHARS) := by
  intro batch hmem
  exact chunkAux_bounded entries BATCH_SIZE [] 0 (by decide) (by simp)
    (by simp [batch_chars]) (by simp) batch hmem

/-- Witness for C5 (amended) at a concrete entry list: the single batch
produced for a two-entry plan satisfies both bounds. -/
theorem C5_batch_chunker_amended_witness :
    ([("a", 5), ("b", 7)] : List (String × Nat)).length ≤ BATCH_SIZE ∧
    (2 ≤ ([("a", 5), ("b", 7)] : List (String × Nat)).length →
      batch_chars [("a", 5), ("b", 7)] ≤ MAX_COMMAND_CHARS) :=
  C5_batch_chunker_amended [("a", 5), ("b", 7)] [("a", 5), ("b", 7)] (by decide)

/-- `_finalize_success` always credits exactly one compressed file and leaves
the skip counter and the single-file trace unchanged, whether or not the
re-verification raised. -/
theorem finalize_success_effect (env : ExecEnv) (st : ExecState) (path : String)
    (fallback_size : Nat) :
    (finalize_success env st path fallback_size).stats.compressed_files
      = st.stats.compressed_files + 1 ∧
    (finalize_success env st path fallback_size).stats.skipped_files
      = st.stats.skipped_files ∧
    (finalize_success env st path fallback_size).singles = st.singles := by
  unfold finalize_success
  cases env.verify path <;> simp [record_success, record_error]

/-- `_compress_single` records its path once and settles the file as exactly
one of compressed / skipped, by the primitive's verdict. -/
theorem compress_single_effect (env : ExecEnv) (st : ExecState) (path : String)
    (file_size : Nat) (algo : String) :
    (compress_single env st path file_size algo).singles = st.singles ++ [path] ∧
    (compress_single env st path file_size algo).stats.compressed_files
      = st.stats.compressed_files + (if env.singleResult path algo then 1 else 0) ∧
    (compress_single env st path file_size algo).stats.skipped_files
      = st.stats.skipped_files + (if env.singleResult path algo then 0 else 1) := by
  unfold compress_single
  by_cases h : env.singleResult path algo
  · obtain ⟨h1, h2, h3⟩ := finalize_success_effect env
      { st with singles := st.singles ++ [path] } path file_size
    simp only [h, if_true]
    exact ⟨h3, h1, h2⟩
  · simp only [h, if_false]
    simp [record_failure]

/-- Folding the single-file path over a batch, preceded by any per-file
bookkeeping that does not touch counters or the trace, appends each path to
the trace once and splits the batch between the two counters by individual
outcome. -/
theorem fold_single_effect (env : ExecEnv) (algo : String)
    (pre : ExecState → String × Nat → ExecState)
    (hpre : ∀ st e, (pre st e).stats.compressed_files = st.stats.compressed_files ∧
      (pre st e).stats.skipped_files = st.stats.skipped_files ∧
      (pre st e).singles = st.singles) :
    ∀ (batch : List (String × Nat)) (st : ExecState),
      (batch.foldl (fun st e => compress_single env (pre st e) e.1 e.2 algo) st).singles
        = st.singles ++ batch.map (fun e => e.1) ∧
      (batch.foldl (fun st e => compress_single env (pre st e) e.1 e.2 algo) st).stats.compressed_files
        = st.stats.compressed_files + batch.countP (fun e => env.singleResult e.1 algo) ∧
      (batch.foldl (fun st e => compress_single env (pre st e) e.1 e.2 algo) st).stats.skipped_files
        = st.stats.skipped_files + batch.countP (fun e => !env.singleResult e.1 algo) := by
  intro batch
  induction batch with
  | nil => intro st; simp
  | cons e rest ih =>
    intro st
    simp only [List.foldl_cons, List.map_cons, List.countP_cons]
    obtain ⟨hp1, hp2, hp3⟩ := hpre st e
    obtain ⟨hc1, hc2, hc3⟩ := compress_single_effect env (pre st e) e.1 e.2 algo
    obtain ⟨ih1, ih2, ih3⟩ := ih (compress_single env (pre st e) e.1 e.2 algo)
    refine ⟨?_, ?_, ?_⟩
    · rw [ih1, hc1, hp3]
      simp
    · rw [ih2, hc2, hp1]
      by_cases h : env.singleResult e.1 algo <;> simp [h] <;> omega
    · rw [ih3, hc3, hp2]
      by_cases h : env.singleResult e.1 algo <;> simp [h] <;> omega

/-- C4: for every batch whose batch-level call reports non-success or raises,
the scheduler runs the single-file path exactly once per file of the batch
(in order), and the counters reflect the sum of the individual outcomes: the
individually-successful files are credited as compressed and the rest as
skipped, not a blanket failure. -/
theorem C4_batch_failure_fallback (env : ExecEnv) (st : ExecState) (algo : String)
    (batch : List (String × Nat))
    (hfail : batch_failed (env.batchResult algo (batch.map (fun e => e.1)))) :
    (process_batch env st algo batch).singles
      = st.singles ++ batch.map (fun e => e.1) ∧
    (process_batch env st algo batch).stats.compressed_files
      = st.stats.compressed_files + batch.countP (fun e => env.singleResult e.1 algo) ∧
    (process_batch env st algo batch).stats.skipped_files
      = st.stats.skipped_files + batch.countP (fun e => !env.singleResult e.1 algo) := by
  unfold process_batch
  cases hres : env.batchResult algo (batch.map (fun e => e.1)) with
  | error e =>
    exact fold_single_effect env algo
      (fun st e => record_error st ("Batch exception for " ++ e.1))
      (fun st e => by simp [record_error]) batch st
  | ok returncode =>
    rw [hres] at hfail
    have hrc : returncode ≠ 0 := hfail
    dsimp only []
    rw [if_pos hrc]
    exact fold_single_effect env algo (fun st _ => st) (fun st e => ⟨rfl, rfl, rfl⟩)
      batch st

/-- Witness for C4: a batch of three files whose batch call returns code 1 is
retried file by file; one file succeeds individually, the other two are
recorded as skips. -/
theorem C4_batch_failure_fallback_witness :
    (process_batch
        ⟨fun _ _ => Except.ok 1, fun p _ => p == "a", fun _ => Except.ok (true, 5)⟩
        ⟨⟨0, 0, 0, 0, 0, []⟩, []⟩ "LZX" [("a", 10), ("b", 20), ("c", 30)]).singles
      = ["a", "b", "c"] ∧
    (process_batch
        ⟨fun _ _ => Except.ok 1, fun p _ => p == "a", fun _ => Except.ok (true, 5)⟩
        ⟨⟨0, 0, 0, 0, 0, []⟩, []⟩ "LZX" [("a", 10), ("b", 20), ("c", 30)]).stats.compressed_files
      = 1 ∧
    (process_batch
        ⟨fun _ _ => Except.ok 1, fun p _ => p == "a", fun _ => Except.ok (true, 5)⟩
        ⟨⟨0, 0, 0, 0, 0, []⟩, []⟩ "LZX" [("a", 10), ("b", 20), ("c", 30)]).stats.skipped_files
      = 2 := by
  obtain ⟨h1, h2, h3⟩ := C4_batch_failure_fallback
    ⟨fun _ _ => Except.ok 1, fun p _ => p == "a", fun _ => Except.ok (true, 5)⟩
    ⟨⟨0, 0, 0, 0, 0, []⟩, []⟩ "LZX" [("a", 10), ("b", 20), ("c", 30)] (by decide)
  refine ⟨?_, ?_, ?_⟩
  · rw [h1]; decide
  · rw [h2]; decide
  · rw [h3]; decide

/-- C6: a planned file whose single-file compression call reports failure is
recorded as a skip with its original size credited to both the compressed and
the skipped running totals (`skipped_files + 1`); consequently
`total_original_size ≥ total_compressed_size + total_skipped_size` fails on a
concrete execution: one planned 10000-byte file whose batch returns code 1
and whose individual retry fails yields totals 10000 ≱ 10000 + 10000. -/
theorem C6_skip_size_double_credit :
    (∀ (env : ExecEnv) (st : ExecState) (path : String) (file_size : Nat)
        (algo : String),
      env.singleResult path algo = false →
      compress_single env st path file_size algo
        = record_failure { st with singles := st.singles ++ [path] } file_size ∧
      (record_failure st file_size).stats.skipped_files
        = st.stats.skipped_files + 1 ∧
      (record_failure st file_size).stats.total_compressed_size
        = st.stats.total_compressed_size + file_size ∧
      (record_failure st file_size).stats.total_skipped_size
        = st.stats.total_skipped_size + file_size ∧
      (record_failure st file_size).stats.total_original_size
        = st.stats.total_original_size) ∧
    ¬((execute_compression_plan
          ⟨fun _ _ => Except.ok 1, fun _ _ => false, fun _ => Except.ok (true, 0)⟩
          [("a", 10000, "XPRESS4K")] ⟨⟨0, 0, 10000, 0, 0, []⟩, []⟩).stats.total_compressed_size +
        (execute_compression_plan
          ⟨fun _ _ => Except.ok 1, fun _ _ => false, fun _ => Except.ok (true, 0)⟩
          [("a", 10000, "XPRESS4K")] ⟨⟨0, 0, 10000, 0, 0, []⟩, []⟩).stats.total_skipped_size ≤
        (execute_compression_plan
          ⟨fun _ _ => Except.ok 1, fun _ _ => false, fun _ => Except.ok (true, 0)⟩
          [("a", 10000, "XPRESS4K")] ⟨⟨0, 0, 10000, 0, 0, []⟩, []⟩).stats.total_original_size) := by
  constructor
  · intro env st path file_size algo h
    refine ⟨?_, rfl, rfl, rfl, rfl⟩
    unfold compress_single
    rw [h]
    simp
  · decide

/-- Witness for C6: the per-file failure accounting at a concrete failing
environment and state. -/
theorem C6_skip_size_double_credit_witness :
    compress_single
        ⟨fun _ _ => Except.ok 1, fun _ _ => false, fun _ => Except.ok (true, 0)⟩
        ⟨⟨0, 0, 10000, 0, 0, []⟩, []⟩ "a" 10000 "XPRESS4K"
      = record_failure ⟨⟨0, 0, 10000, 0, 0, []⟩, ["a"]⟩ 10000 :=
  (C6_skip_size_double_credit.1
    ⟨fun _ _ => Except.ok 1, fun _ _ => false, fun _ => Except.ok (true, 0)⟩
    ⟨⟨0, 0, 10000, 0, 0, []⟩, []⟩ "a" 10000 "XPRESS4K" rfl).1

/-- A predicate and its negation split a list's length. -/
theorem countP_add_countP_neg {α : Type} (p : α → Bool) (l : List α) :
    l.countP p + l.countP (fun a => !p a) = l.length := by
  induction l with
  | nil => simp
  | cons a t ih =>
    simp only [List.countP_cons, List.length_cons]
    by_cases h : p a <;> simp [h] <;> omega

/-- Appending an entry through `setdefault` extends exactly its algorithm's
group by that entry at the end. -/
theorem find_group_add_to_group (groups : List (String × List (String × Nat)))
    (b a : String) (e : String × Nat) :
    find_group a (add_to_group groups b e)
      = find_group a groups ++ (if b = a then [e] else []) := by
  induction groups with
  | nil =>
    by_cases h : b = a <;> simp [add_to_group, find_group, h]
  | cons g rest ih =>
    obtain ⟨k, l⟩ := g
    unfold add_to_group
    by_cases hk : k = b
    · rw [if_pos hk]
      by_cases ha : k = a
      · simp [find_group, ha, hk ▸ ha]
      · have hba : ¬b = a := fun hba => ha (hk.trans hba)
        simp [find_group, ha, hba]
    · rw [if_neg hk]
      by_cases ha : k = a
      · have hba : ¬b = a := fun hba => hk (ha.trans hba.symm)
        simp [find_group, ha, hba]
      · simp [find_group, ha, ih]

/-- The grouping fold distributes over `find_group`. -/
theorem find_group_foldl (plan : List (String × Nat × String)) :
    ∀ (groups : List (String × List (String × Nat))) (a : String),
      find_group a (plan.foldl (fun gs e => add_to_group gs e.2.2 (e.1, e.2.1)) groups)
        = find_group a groups ++ group_entries a plan := by
  induction plan with
  | nil =>
    intro groups a
    simp [group_entries]
  | cons e rest ih =>
    intro groups a
    simp only [List.foldl_cons]
    rw [ih, find_group_add_to_group]
    unfold group_entries
    by_cases h : e.2.2 = a <;> simp [List.filter_cons, h, List.append_assoc]

/-- `setdefault`-append grows the grouped entry total by one. -/
theorem sum_add_to_group (groups : List (String × List (String × Nat)))
    (b : String) (e : String × Nat) :
    ((add_to_group groups b e).map (fun g => g.2.length)).sum
      = ((groups.map (fun g => g.2.length)).sum) + 1 := by
  induction groups with
  | nil => simp [add_to_group]
  | cons g rest ih =>
    obtain ⟨k, l⟩ := g
    unfold add_to_group
    by_cases hk : k = b
    · rw [if_pos hk]
      simp
      omega
    · rw [if_neg hk]
      simp [ih]
      omega

/-- Grouping preserves the total number of entries. -/
theorem sum_group_by_algorithm (plan : List (String × Nat × String)) :
    (((group_by_algorithm plan).map (fun g => g.2.length)).sum) = plan.length := by
  unfold group_by_algorithm
  suffices h : ∀ groups : List (String × List (String × Nat)),
      ((plan.foldl (fun gs e => add_to_group gs e.2.2 (e.1, e.2.1)) groups).map
        (fun g => g.2.length)).sum
        = ((groups.map (fun g => g.2.length)).sum) + plan.length by
    simpa using h []
  induction plan with
  | nil => intro groups; simp
  | cons e rest ih =>
    intro groups
    simp only [List.foldl_cons, List.length_cons]
    rw [ih, sum_add_to_group]
    omega

/-- Folding `_finalize_success` over a batch credits every file as
compressed. -/
theorem fold_finalize_effect (env : ExecEnv) :
    ∀ (batch : List (String × Nat)) (st : ExecState),
      (batch.foldl (fun st e => finalize_success env st e.1 e.2) st).stats.compressed_files
        = st.stats.compressed_files + batch.length ∧
      (batch.foldl (fun st e => finalize_success env st e.1 e.2) st).stats.skipped_files
        = st.stats.skipped_files := by
  intro batch
  induction batch with
  | nil => intro st; simp
  | cons e rest ih =>
    intro st
    simp only [List.foldl_cons, List.length_cons]
    obtain ⟨h1, h2, _⟩ := finalize_success_effect env st e.1 e.2
    obtain ⟨ih1, ih2⟩ := ih (finalize_success env st e.1 e.2)
    rw [ih1, ih2, h1, h2]
    omega

/-- Every batch outcome settles each of its files exactly once: the combined
compressed-plus-skipped count grows by the batch size. -/
theorem process_batch_total (env : ExecEnv) (st : ExecState) (algo : String)
    (batch : List (String × Nat)) :
    (process_batch env st algo batch).stats.compressed_files
        + (process_batch env st algo batch).stats.skipped_files
      = st.stats.compressed_files + st.stats.skipped_files + batch.length := by
  unfold process_batch
  cases env.batchResult algo (batch.map (fun e => e.1)) with
  | error e =>
    obtain ⟨_, h2, h3⟩ := fold_single_effect env algo
      (fun st e => record_error st ("Batch exception for " ++ e.1))
      (fun st e => by simp [record_error]) batch st
    rw [h2, h3]
    have := countP_add_countP_neg (fun e : String × Nat => env.singleResult e.1 algo) batch
    omega
  | ok returncode =>
    dsimp only []
    by_cases h : returncode ≠ 0
    · rw [if_pos h]
      obtain ⟨_, h2, h3⟩ := fold_single_effect env algo (fun st _ => st)
        (fun st e => ⟨rfl, rfl, rfl⟩) batch st
      rw [h2, h3]
      have := countP_add_countP_neg (fun e : String × Nat => env.singleResult e.1 algo) batch
      omega
    · rw [if_neg h]
      obtain ⟨h1, h2⟩ := fold_finalize_effect env batch st
      rw [h1, h2]
      omega

/-- Folding batches accumulates their sizes into the settled-file total. -/
theorem fold_batches_total (env : ExecEnv) (algo : String) :
    ∀ (batches : List (List (String × Nat))) (st : ExecState),
      ((batches.foldl (fun st b => process_batch env st algo b) st).stats.compressed_files
          + (batches.foldl (fun st b => process_batch env st algo b) st).stats.skipped_files)
        = st.stats.compressed_files + st.stats.skipped_files
            + (batches.map List.length).sum := by
  intro batches
  induction batches with
  | nil => intro st; simp
  | cons b rest ih =>
    intro st
    simp only [List.foldl_cons, List.map_cons, List.sum_cons]
    rw [ih (process_batch env st algo b)]
    have := process_batch_total env st algo b
    omega

/-- C10: the executor accounts for each plan entry exactly once — every
algorithm's group holds exactly its plan entries in order, the concatenation
of a group's batches equals the group's entry list, and the run settles every
entry as exactly one of compressed or skipped, so those counters together
grow by the plan's length. -/
theorem C10_plan_accounted_once (env : ExecEnv) (plan : List (String × Nat × String))
    (st : ExecState) :
    (∀ a, find_group a (group_by_algorithm plan) = group_entries a plan) ∧
    (∀ g ∈ group_by_algorithm plan, (chunk g.2 BATCH_SIZE).flatten = g.2) ∧
    ((execute_compression_plan env plan st).stats.compressed_files
        + (execute_compression_plan env plan st).stats.skipped_files
      = st.stats.compressed_files + st.stats.skipped_files + plan.length) := by
  refine ⟨?_, ?_, ?_⟩
  · intro a
    have := find_group_foldl plan [] a
    simpa [group_by_algorithm, find_group] using this
  · intro g _
    exact chunk_join g.2 BATCH_SIZE
  · unfold execute_compression_plan
    have key : ∀ (groups : List (String × List (String × Nat))) (st : ExecState),
        ((groups.foldl (fun st g =>
            (chunk g.2 BATCH_SIZE).foldl (fun st b => process_batch env st g.1 b) st) st).stats.compressed_files
          + (groups.foldl (fun st g =>
            (chunk g.2 BATCH_SIZE).foldl (fun st b => process_batch env st g.1 b) st) st).stats.skipped_files)
          = st.stats.compressed_files + st.stats.skipped_files
              + ((groups.map (fun g => g.2.length)).sum) := by
      intro groups
      induction groups with
      | nil => intro st; simp
      | cons g rest ih =>
        intro st
        simp only [List.foldl_cons, List.map_cons, List.sum_cons]
        rw [ih]
        have hb := fold_batches_total env g.1 (chunk g.2 BATCH_SIZE) st
        have hlen : ((chunk g.2 BATCH_SIZE).map List.length).sum = g.2.length := by
          rw [← List.length_flatten, chunk_join]
        rw [hlen] at hb
        omega
    rw [key (group_by_algorithm plan) st, sum_group_by_algorithm]

/-- Witness for C10 at a concrete environment and two-algorithm plan. -/
theorem C10_plan_accounted_once_witness :
    find_group "LZX" (group_by_algorithm
        [("a", 10, "XPRESS4K"), ("b", 2000000, "LZX"), ("c", 20, "XPRESS4K")])
      = [("b", 2000000)] ∧
    (execute_compression_plan
        ⟨fun _ _ => Except.ok 0, fun _ _ => true, fun _ => Except.ok (true, 5)⟩
        [("a", 10, "XPRESS4K"), ("b", 2000000, "LZX"), ("c", 20, "XPRESS4K")]
        ⟨⟨0, 0, 0, 0, 0, []⟩, []⟩).stats.compressed_files
      + (execute_compression_plan
        ⟨fun _ _ => Except.ok 0, fun _ _ => true, fun _ => Except.ok (true, 5)⟩
        [("a", 10, "XPRESS4K"), ("b", 2000000, "LZX"), ("c", 20, "XPRESS4K")]
        ⟨⟨0, 0, 0, 0, 0, []⟩, []⟩).stats.skipped_files = 3 := by
  obtain ⟨h1, _, h3⟩ := C10_plan_accounted_once
    ⟨fun _ _ => Except.ok 0, fun _ _ => true, fun _ => Except.ok (true, 5)⟩
    [("a", 10, "XPRESS4K"), ("b", 2000000, "LZX"), ("c", 20, "XPRESS4K")]
    ⟨⟨0, 0, 0, 0, 0, []⟩, []⟩
  refine ⟨?_, ?_⟩
  · rw [h1 "LZX"]
    decide
  · rw [h3]
    decide

/-- Structural induction for the directory tree, recursing through the
subdirectory list. -/
theorem DirTree.strong_induction (P : DirTree → Prop)
    (h : ∀ name files subdirs, (∀ s ∈ subdirs, P s) → P ⟨name, files, subdirs⟩) :
    ∀ d, P d
  | ⟨name, files, subdirs⟩ =>
    h name files subdirs (fun s hs => DirTree.strong_induction P h s)
termination_by d => sizeOf d
decreasing_by
  have h2 := List.sizeOf_lt_of_mem hs
  simp only [DirTree.mk.sizeOf_spec]
  omega

/-- A strict descendant of `p ++ [x]` below `q` puts `q` at or above `p`. -/
theorem under_concat {q p : SegPath} {x : String} (h : under q (p ++ [x])) :
    under q p ∨ q = p := by
  obtain ⟨rest, hne, heq⟩ := h
  induction rest using List.reverseRecOn with
  | nil => exact absurd rfl hne
  | append_singleton rest' b _ =>
    rw [← List.append_assoc] at heq
    obtain ⟨h1, _⟩ := List.append_inj' heq (by simp)
    cases hr : rest' with
    | nil =>
      right
      rw [hr] at h1
      simpa using h1.symm
    | cons y ys =>
      left
      exact ⟨rest', by simp [hr], h1⟩

/-- Only the empty path sits strictly above a single-segment path. -/
theorem under_singleton {q : SegPath} {x : String} (h : under q [x]) : q = [] := by
  obtain ⟨rest, hne, heq⟩ := h
  have hlen := congrArg List.length heq
  rw [List.length_append] at hlen
  have hrpos : 0 < rest.length := List.length_pos.mpr hne
  have hq0 : q.length = 0 := by
    simp at hlen
    omega
  exact List.length_eq_zero.mp hq0

/-- A file yielded by the pruning loop comes from a subdirectory that passed
the skip check. -/
theorem walkFilesForest_mem {skip : SegPath → Bool} {cur f : SegPath}
    {l : List DirTree} (h : f ∈ walkFilesForest skip cur l) :
    ∃ d ∈ l, ¬skip (cur ++ [d.name]) = true ∧ f ∈ walkFiles skip cur d := by
  induction l with
  | nil => simp [walkFilesForest] at h
  | cons d rest ih =>
    simp only [walkFilesForest] at h
    rcases List.mem_append.mp h with h1 | h2
    · by_cases hsk : skip (cur ++ [d.name]) = true
      · rw [if_pos hsk] at h1
        simp at h1
      · rw [if_neg hsk] at h1
        exact ⟨d, List.mem_cons_self d rest, hsk, h1⟩
    · obtain ⟨d', hd', hrest⟩ := ih h2
      exact ⟨d', List.mem_cons_of_mem d hd', hrest⟩

/-- A directory opened by the pruning loop comes from a subdirectory that
passed the skip check. -/
theorem walkDirsForest_mem {skip : SegPath → Bool} {cur v : SegPath}
    {l : List DirTree} (h : v ∈ walkDirsForest skip cur l) :
    ∃ d ∈ l, ¬skip (cur ++ [d.name]) = true ∧ v ∈ walkDirs skip cur d := by
  induction l with
  | nil => simp [walkDirsForest] at h
  | cons d rest ih =>
    simp only [walkDirsForest] at h
    rcases List.mem_append.mp h with h1 | h2
    · by_cases hsk : skip (cur ++ [d.name]) = true
      · rw [if_pos hsk] at h1
        simp at h1
      · rw [if_neg hsk] at h1
        exact ⟨d, List.mem_cons_self d rest, hsk, h1⟩
    · obtain ⟨d', hd', hrest⟩ := ih h2
      exact ⟨d', List.mem_cons_of_mem d hd', hrest⟩

/-- Any skipped strict ancestor of a file yielded while walking `d` from
`cur` must lie at or above the directory being walked: the traversal never
descends past a denied directory. -/
theorem walkFiles_under (skip : SegPath → Bool) (q : SegPath) (hq : skip q = true) :
    ∀ (d : DirTree), ∀ (cur f : SegPath), f ∈ walkFiles skip cur d → under q f →
      under q (cur ++ [d.name]) ∨ q = cur ++ [d.name] := by
  intro d
  induction d using DirTree.strong_induction with
  | h name files subdirs ih =>
    intro cur f hf hu
    simp only [walkFiles] at hf
    rcases List.mem_append.mp hf with h1 | h2
    · obtain ⟨x, hx, rfl⟩ := List.mem_map.mp h1
      exact under_concat hu
    · obtain ⟨s, hs, hsk, hmem⟩ := walkFilesForest_mem h2
      rcases ih s hs (cur ++ [name]) f hmem hu with h | h
      · exact under_concat h
      · rw [← h] at hsk
        exact absurd hq hsk

/-- Same statement for the directories the walk opens: a skipped directory is
neither opened itself nor an ancestor of any opened directory below the
current one. -/
theorem walkDirs_under (skip : SegPath → Bool) (q : SegPath) (hq : skip q = true) :
    ∀ (d : DirTree), ∀ (cur v : SegPath), v ∈ walkDirs skip cur d →
      (v = q ∨ under q v) →
      under q (cur ++ [d.name]) ∨ q = cur ++ [d.name] := by
  intro d
  induction d using DirTree.strong_induction with
  | h name files subdirs ih =>
    intro cur v hv hqv
    simp only [walkDirs] at hv
    rcases List.mem_cons.mp hv with h1 | h2
    · subst h1
      rcases hqv with h | h
      · exact Or.inr h.symm
      · exact Or.inl h
    · obtain ⟨s, hs, hsk, hmem⟩ := walkDirsForest_mem h2
      rcases ih s hs (cur ++ [name]) v hmem hqv with h | h
      · exact under_concat h
      · rw [← h] at hsk
        exact absurd hq hsk

/-- The entropy re-filter only ever removes candidates. -/
theorem mem_of_mem_filter_high_entropy
    {sample : SegPath → Option ℚ × Nat × Nat} {base_dir : SegPath}
    {min_savings_percent : ℚ} {candidates : List PlanEntry} {e : PlanEntry}
    (h : e ∈ filter_high_entropy_directories sample base_dir min_savings_percent
      candidates) : e ∈ candidates := by
  unfold filter_high_entropy_directories at h
  dsimp only [] at h
  split at h
  · exact h
  · split at h
    · split at h
      · exact h
      · exact List.mem_of_mem_filter h
    · split at h
      · exact h
      · exact List.mem_of_mem_filter h

/-- Every plan candidate's path came from the walked file stream. -/
theorem mem_of_mem_plan_candidates {classify : SegPath → Option Nat}
    {files : List SegPath} {e : PlanEntry} (h : e ∈ plan_candidates classify files) :
    e.1 ∈ files := by
  unfold plan_candidates at h
  obtain ⟨f, hf, hfe⟩ := List.mem_filterMap.mp h
  cases hc : classify f with
  | none =>
    rw [hc] at hfe
    simp at hfe
  | some size =>
    rw [hc] at hfe
    obtain rfl := Option.some_inj.mp hfe
    exact hf

/-- C3: directory pruning is monotonic — for every non-root-anchor directory
`q` denied by the skip policy, the traversal opens neither `q` nor any
descendant of `q`, and no file strictly beneath `q` appears in the final
compression plan, the second-pass entropy re-filter included. -/
theorem C3_directory_pruning_monotonic (skip : SegPath → Bool) (root : DirTree)
    (classify : SegPath → Option Nat) (sample : SegPath → Option ℚ × Nat × Nat)
    (min_savings_percent : ℚ) (q : SegPath)
    (hq : skip q = true) (hne : q ≠ []) :
    (∀ v ∈ visited_dirs skip root, v ≠ q ∧ ¬under q v) ∧
    (∀ e ∈ final_plan skip classify sample min_savings_percent root,
      ¬under q e.1) := by
  constructor
  · intro v hv
    unfold visited_dirs at hv
    by_cases hroot : skip [root.name] = true
    · rw [if_pos hroot] at hv
      simp at hv
    · rw [if_neg hroot] at hv
      have key : ¬(v = q ∨ under q v) := by
        intro hqv
        rcases walkDirs_under skip q hq root [] v hv hqv with h | h
        · simp only [List.nil_append] at h
          exact hne (under_singleton h)
        · simp only [List.nil_append] at h
          rw [h] at hq
          exact hroot hq
      exact ⟨fun h => key (Or.inl h), fun h => key (Or.inr h)⟩
  · intro e he hu
    have hf : e.1 ∈ iter_files skip root :=
      mem_of_mem_plan_candidates (mem_of_mem_filter_high_entropy he)
    unfold iter_files at hf
    by_cases hroot : skip [root.name] = true
    · rw [if_pos hroot] at hf
      simp at hf
    · rw [if_neg hroot] at hf
      rcases walkFiles_under skip q hq root [] e.1 hf hu with h | h
      · simp only [List.nil_append] at h
        exact hne (under_singleton h)
      · simp only [List.nil_append] at h
        rw [h] at hq
        exact hroot hq

/-- Witness for C3 at a concrete tree: with `r/sub` denied, the visited
directory `r` is neither the denied directory nor beneath it, and the planned
file `r/f` is not beneath it either. -/
theorem C3_directory_pruning_monotonic_witness :
    ((["r"] : SegPath) ≠ ["r", "sub"] ∧ ¬under ["r", "sub"] ["r"]) ∧
    ¬under ["r", "sub"] ["r", "f"] := by
  have H := C3_directory_pruning_monotonic (fun p => p = ["r", "sub"])
    ⟨"r", ["f"], [⟨"sub", ["g"], []⟩]⟩ (fun _ => some 70000)
    (fun _ => (none, 0, 0)) 0 ["r", "sub"] (by simp) (by simp)
  refine ⟨H.1 ["r"] ?_, H.2 (["r", "f"], 70000,
    algorithm_for (get_size_category 70000)) ?_⟩
  · simp [visited_dirs, walkDirs, walkDirsForest]
  · simp [final_plan, filter_high_entropy_directories, plan_candidates,
      iter_files, walkFiles, walkFilesForest]

end TrashCompactor
